import Mathlib

/-!
Verification development for `notion_mirror_availability_sync.py`: a batch job
that mirrors approved leave records from a source Notion database into a target
database, keyed by a stored "Sync Key" field.  The definitions below are a
shallow embedding of the script: Python `date` values become `DateT`, the
property bags become structures holding exactly the fields the script reads,
fallible operations (`date.fromisoformat`) return `Option`/error values, and
the main `run` loop becomes a fold over the fetched source rows threading the
counters, the in-memory target index, the target dataset and the trace of API
calls.
-/

namespace AvailSync

/-! ## Calendar model (Python `datetime.date`) -/

structure DateT where
  year : Nat
  month : Nat
  day : Nat
deriving DecidableEq, Repr

def isLeap (y : Nat) : Bool :=
  (y % 4 == 0 && y % 100 != 0) || (y % 400 == 0)

def daysInMonth (y m : Nat) : Nat :=
  if m = 2 then (if isLeap y then 29 else 28)
  else if m = 4 ∨ m = 6 ∨ m = 9 ∨ m = 11 then 30
  else 31

/-- Day count since 0000-03-01 (proleptic Gregorian), standard era/year-of-era
    decomposition. -/
def daysFromCivil (d : DateT) : Nat :=
  let y := if d.month ≤ 2 then d.year - 1 else d.year
  let era := y / 400
  let yoe := y % 400
  let mp := if d.month > 2 then d.month - 3 else d.month + 9
  let doy := (153 * mp + 2) / 5 + d.day - 1
  let doe := yoe * 365 + yoe / 4 - yoe / 100 + doy
  era * 146097 + doe

/-- Inverse of `daysFromCivil` on valid day counts. -/
def civilFromDays (z : Nat) : DateT :=
  let era := z / 146097
  let doe := z % 146097
  let yoe := (doe - doe / 1460 + doe / 36524 - doe / 146096) / 365
  let y := yoe + era * 400
  let doy := doe - (365 * yoe + yoe / 4 - yoe / 100)
  let mp := (5 * doy + 2) / 153
  let dd := doy - (153 * mp + 2) / 5 + 1
  let m := if mp < 10 then mp + 3 else mp - 9
  ⟨if m ≤ 2 then y + 1 else y, m, dd⟩

/-- ISO weekday, Monday = 1 .. Sunday = 7 (Python `date.isoweekday`). -/
def isoWeekday (d : DateT) : Nat :=
  (daysFromCivil d + 2) % 7 + 1

/-- Ordinal day within the year, January 1st = 1. -/
def ordinalOf (d : DateT) : Nat :=
  daysFromCivil d - daysFromCivil ⟨d.year, 1, 1⟩ + 1

/-- Number of ISO weeks in year `y`: 53 iff Jan 1 is a Thursday, or a leap
    year's Jan 1 is a Wednesday. -/
def isoWeeksInYear (y : Nat) : Nat :=
  let wd := isoWeekday ⟨y, 1, 1⟩
  if wd = 4 ∨ (isLeap y ∧ wd = 3) then 53 else 52

/-- Pair `(iso_year, iso_week)` of a date, as Python `date.isocalendar` computes it
    (the week containing the year's first Thursday is week 1). -/
def isocalendar (d : DateT) : Nat × Nat :=
  let wd := isoWeekday d
  let o := ordinalOf d
  let w := (o + 10 - wd) / 7
  if w = 0 then (d.year - 1, isoWeeksInYear (d.year - 1))
  else if w = 53 ∧ isoWeeksInYear d.year = 52 then (d.year + 1, 1)
  else (d.year, w)

/-- Strict comparison of dates (Python `date` ordering). -/
def dateLt (a b : DateT) : Bool :=
  decide (a.year < b.year ∨ (a.year = b.year ∧
    (a.month < b.month ∨ (a.month = b.month ∧ a.day < b.day))))

/-- Subtraction `today - timedelta(days = n)`. -/
def dateSubDays (d : DateT) (n : Nat) : DateT :=
  civilFromDays (daysFromCivil d - n)

def pad2 (n : Nat) : String :=
  if n < 10 then "0" ++ toString n else toString n

def pad4 (n : Nat) : String :=
  if n < 10 then "000" ++ toString n
  else if n < 100 then "00" ++ toString n
  else if n < 1000 then "0" ++ toString n
  else toString n

/-- Python `date.isoformat`: "YYYY-MM-DD". -/
def isoformat (d : DateT) : String :=
  pad4 d.year ++ "-" ++ pad2 d.month ++ "-" ++ pad2 d.day

/-- The ISO week label the script builds from a date: the Python
    f-string "{iso_year}-W{iso_week:02d}". -/
def isoWeekStrOf (d : DateT) : String :=
  toString (isocalendar d).1 ++ "-W" ++ pad2 (isocalendar d).2

def validYMD (y m d : Nat) : Bool :=
  1 ≤ y && 1 ≤ m && m ≤ 12 && 1 ≤ d && d ≤ daysInMonth y m

def digitVal (c : Char) : Option Nat :=
  if 48 ≤ c.toNat ∧ c.toNat ≤ 57 then some (c.toNat - 48) else none

def digitsToNatAux (acc : Nat) : List Char → Option Nat
  | [] => some acc
  | c :: cs =>
    match digitVal c with
    | some d => digitsToNatAux (acc * 10 + d) cs
    | none => none

/-- Value of a nonempty all-digit character sequence, `none` otherwise. -/
def digitsToNat : List Char → Option Nat
  | [] => none
  | c :: cs => digitsToNatAux 0 (c :: cs)

/-- Parser for `date.fromisoformat` on the canonical "YYYY-MM-DD" form (the only form the
    Notion date payloads carry); any other string is a parse failure
    (a `ValueError` in Python). -/
def fromisoformat (s : String) : Option DateT :=
  match s.data with
  | [y1, y2, y3, y4, h1, m1, m2, h2, d1, d2] =>
    if h1 = '-' ∧ h2 = '-' then
      match digitsToNat [y1, y2, y3, y4], digitsToNat [m1, m2],
          digitsToNat [d1, d2] with
      | some y, some m, some d =>
        if validYMD y m d then some ⟨y, m, d⟩ else none
      | _, _, _ => none
    else none
  | _ => none

/-! ## Property decoders (script lines 33-45)

A Notion property value is modelled by a structure holding exactly the fields
the script dereferences; `Option` stands for "key absent, JSON null, or a
Python-falsy empty container". -/

/-- The dict stored under a date property's "date" key. -/
structure DateObj where
  start : Option String
deriving DecidableEq, Repr

/-- A date-typed property value as the script consumes it. -/
structure DateProp where
  date : Option DateObj
deriving DecidableEq, Repr

/-- A property value passed to `get_formula_string`: its "type" tag and the
    string stored under `formula.string`. -/
structure FormulaProp where
  type : Option String
  formulaString : Option String
deriving DecidableEq, Repr

/-- Helper `get_formula_string`: `None` unless the property exists and its type tag is
    "formula"; then the (possibly null) `formula.string` value. -/
def get_formula_string (prop : Option FormulaProp) : Option String :=
  match prop with
  | none => none
  | some p => if p.type = some "formula" then p.formulaString else none

/-- Helper `get_date`: `None` for an absent property, absent/empty date object, or
    absent/empty start string; otherwise `date.fromisoformat(d["start"][:10])`,
    which RAISES (modelled as `.error`) when the 10-char prefix is not a valid
    ISO date. -/
def get_date (prop : Option DateProp) : Except String (Option DateT) :=
  match prop with
  | none => Except.ok none
  | some p =>
    match p.date with
    | none => Except.ok none
    | some dobj =>
      match dobj.start with
      | none => Except.ok none
      | some s =>
        if s = "" then Except.ok none
        else
          match fromisoformat (s.take 10) with
          | some dt => Except.ok (some dt)
          | none => Except.error "ValueError: invalid isoformat string"

/-! ## Source rows (the fields `run` reads, script lines 128-160) -/

/-- The "select" object of the "Leave Type" property. -/
structure SelectVal where
  name : Option String
deriving DecidableEq, Repr

/-- The "Client Unavailability" property: a formula returning a boolean, or a
    plain checkbox. -/
structure CUProp where
  type : Option String
  formulaBoolean : Option Bool
  checkbox : Option Bool
deriving DecidableEq, Repr

/-- One fetched source page, carrying exactly the properties the script
    dereferences.  `statusFormulaString` is the display value of the "Status"
    formula property, which the server-side source filter tests;
    `statusRawName` is the raw status-field value of the same page — the script
    never reads it, it is present so that statements about the intended
    approval source of truth can be expressed. -/
structure SourceRow where
  id : String
  statusFormulaString : Option String
  statusRawName : Option String
  leaveStartDate : Option DateProp
  tillDate : Option DateProp
  leaveType : Option SelectVal
  requestor : Option (List String)
  clientUnavailability : Option CUProp
deriving DecidableEq, Repr

/-- The server-side source filter (script lines 79-88): keep a page iff its
    "Status" formula string equals the literal "Approved". -/
def matchesSourceFilter (r : SourceRow) : Bool :=
  r.statusFormulaString = some "Approved"

/-- Line 147: `requestor_prop.get("people", []) if requestor_prop else []`. -/
def requestorPeopleOf (r : SourceRow) : List String :=
  r.requestor.getD []

/-- Lines 142-143: the select's name, `None` when the property or select object
    is absent/null. -/
def leaveTypeNameOf (r : SourceRow) : Option String :=
  r.leaveType.bind SelectVal.name

/-- Lines 150-154: formula-typed properties yield `formula.boolean` (default
    False), anything else the checkbox value (default False). -/
def clientUnavailOf (p : Option CUProp) : Bool :=
  match p with
  | none => false
  | some c =>
    if c.type = some "formula" then c.formulaBoolean.getD false
    else c.checkbox.getD false

/-- Line 160: `sync_key = f"{page['id']}|LEAVE"`. -/
def syncKeyOf (r : SourceRow) : String :=
  r.id ++ "|LEAVE"

/-! ## Target rows and the target index (script lines 103-112) -/

/-- A target page as this system reads it back: its id and the rich-text
    fragments stored under "Sync Key". -/
structure TargetRow where
  id : String
  syncKey : List String
deriving DecidableEq, Repr

def TargetRow.keyOf (t : TargetRow) : Option String :=
  t.syncKey.head?

/-- Association-list lookup with the semantics of a Python dict where later
    assignments are consed to the front. -/
def lookupKey (k : String) : List (String × String) → Option String
  | [] => none
  | (a, b) :: rest => if k = a then some b else lookupKey k rest

def buildIndexAux (acc : List (String × String)) :
    List TargetRow → List (String × String)
  | [] => acc
  | t :: ts =>
    buildIndexAux
      (match t.keyOf with
       | some k => (k, t.id) :: acc
       | none => acc) ts

/-- Lines 103-112: map each target row's first "Sync Key" fragment to its page
    id; rows without a stored key are invisible. -/
def buildIndex (ts : List TargetRow) : List (String × String) :=
  buildIndexAux [] ts

/-! ## The reconciliation loop (script lines 114-217) -/

/-- The payload the script builds for a create/update (lines 162-197); `none`
    fields are the entries removed by the trailing None-filter. -/
structure Payload where
  name : String
  syncKey : String
  leaveStartDate : String
  leaveEndDate : String
  leaveType : Option String
  clientUnavailability : Bool
  isoWeek : String
  assignedTo : Option (List String)
  lastSyncedAt : String
deriving DecidableEq, Repr

inductive ApiCall where
  | querySource
  | queryTarget
  | createPage (payload : Payload)
  | updatePage (pageId : String) (payload : Payload)
deriving DecidableEq, Repr

def payloadOf (nowTs : String) (r : SourceRow) (sd ed : DateT) : Payload :=
  { name := "Leave | " ++ isoformat sd ++ " → " ++ isoformat ed
  , syncKey := syncKeyOf r
  , leaveStartDate := isoformat sd
  , leaveEndDate := isoformat ed
  , leaveType :=
      match leaveTypeNameOf r with
      | some n => if n = "" then none else some n
      | none => none
  , clientUnavailability := clientUnavailOf r.clientUnavailability
  , isoWeek := isoWeekStrOf sd
  , assignedTo :=
      match requestorPeopleOf r with
      | [] => none
      | ps => some ps
  , lastSyncedAt := nowTs }

/-- Created page ids are opaque unique identifiers minted by the API; the model
    draws them from an injective supply indexed by a counter. -/
def freshId (n : Nat) : String :=
  String.mk (List.replicate (n + 1) 'N')

structure RunState where
  created : Nat
  updated : Nat
  skipped : Nat
  index : List (String × String)
  targets : List TargetRow
  nextId : Nat
  calls : List ApiCall
deriving DecidableEq, Repr

/-- Effect of `notion.pages.update`: rewrites the stored Sync Key of the page with the
    given id to the payload's key. -/
def updateTargets (ts : List TargetRow) (pid key : String) : List TargetRow :=
  ts.map fun t => if t.id = pid then { t with syncKey := [key] } else t

/-- The body of the per-row loop, after the two `get_date` calls succeeded with
    values `s` and `e`: skip when either date is missing or the end date
    precedes the cutoff; otherwise upsert by sync key, inserting a freshly
    created page into the in-memory index. -/
def stepRow (cutoff : DateT) (nowTs : String) (st : RunState) (r : SourceRow)
    (s e : Option DateT) : RunState :=
  match s, e with
  | some sd, some ed =>
    if dateLt ed cutoff then { st with skipped := st.skipped + 1 }
    else
      let p := payloadOf nowTs r sd ed
      match lookupKey p.syncKey st.index with
      | some pid =>
        { st with
          updated := st.updated + 1
          targets := updateTargets st.targets pid p.syncKey
          calls := st.calls ++ [ApiCall.updatePage pid p] }
      | none =>
        let nid := freshId st.nextId
        { st with
          created := st.created + 1
          index := (p.syncKey, nid) :: st.index
          targets := st.targets ++ [{ id := nid, syncKey := [p.syncKey] }]
          nextId := st.nextId + 1
          calls := st.calls ++ [ApiCall.createPage p] }
  | _, _ => { st with skipped := st.skipped + 1 }

/-- The source loop.  A `get_date` failure is an uncaught `ValueError`: the
    partial state is returned together with the error message. -/
def runLoop (cutoff : DateT) (nowTs : String) :
    RunState → List SourceRow → RunState × Option String
  | st, [] => (st, none)
  | st, r :: rs =>
    match get_date r.leaveStartDate with
    | Except.error m => (st, some m)
    | Except.ok s =>
      match get_date r.tillDate with
      | Except.error m => (st, some m)
      | Except.ok e => runLoop cutoff nowTs (stepRow cutoff nowTs st r s e) rs

/-- Function `run()` (script lines 72-217): compute the cutoff, fetch the
    filter-matching source rows, build the target index from a full target
    scan, then reconcile row by row. -/
def run (today : DateT) (lookbackDays : Nat) (nowTs : String)
    (sourceAll : List SourceRow) (targets0 : List TargetRow) :
    RunState × Option String :=
  let cutoff := dateSubDays today lookbackDays
  let sourceRows := sourceAll.filter matchesSourceFilter
  runLoop cutoff nowTs
    { created := 0, updated := 0, skipped := 0
    , index := buildIndex targets0, targets := targets0, nextId := 0
    , calls := [ApiCall.querySource, ApiCall.queryTarget] } sourceRows

/-- The summary line the script logs (lines 212-217). -/
def summaryLine (st : RunState) : String :=
  "Availability sync completed | created=" ++ toString st.created ++
    " updated=" ++ toString st.updated ++ " skipped=" ++ toString st.skipped

/-! ## Module-level environment validation (script lines 20-28) -/

structure Env where
  notionToken : Option String
  sourceDbId : Option String
  targetDbId : Option String
  syncLookbackDays : Option String
deriving DecidableEq, Repr

/-- Python truthiness of `os.getenv` results: `None` and "" are falsy. -/
def pyFalsy : Option String → Bool
  | none => true
  | some s => s = ""

def isSpaceChar (c : Char) : Bool :=
  c = ' ' ∨ c = '\t' ∨ c = '\n' ∨ c = '\r'

/-- Characters of a string with surrounding whitespace removed. -/
def stripChars (cs : List Char) : List Char :=
  ((cs.dropWhile isSpaceChar).reverse.dropWhile isSpaceChar).reverse

/-- Python `int(s)`: strip whitespace, then parse an optionally signed digit
    string; anything else raises `ValueError`. -/
def parseIntStr (s : String) : Except String Int :=
  let core : List Char → Option Int := fun cs =>
    match cs with
    | '-' :: rest => (digitsToNat rest).map (fun n => -(n : Int))
    | '+' :: rest => (digitsToNat rest).map (fun n => (n : Int))
    | rest => (digitsToNat rest).map (fun n => (n : Int))
  match core (stripChars s.data) with
  | some n => Except.ok n
  | none => Except.error "ValueError: invalid literal for int"

/-- Line 23: `int(os.getenv("SYNC_LOOKBACK_DAYS", "45"))`. -/
def lookbackFromEnv (v : Option String) : Except String Int :=
  parseIntStr (v.getD "45")

/-- Lines 20-28 in order: the lookback parse happens first, then the presence
    check over the three required variables raises `RuntimeError`. -/
def moduleInit (e : Env) : Except String Int :=
  match lookbackFromEnv e.syncLookbackDays with
  | Except.error m => Except.error m
  | Except.ok lb =>
    if pyFalsy e.notionToken || pyFalsy e.sourceDbId || pyFalsy e.targetDbId then
      Except.error "Missing required environment variables"
    else
      Except.ok lb

/-- The whole process: module initialization, then `run()`.  The first
    component is the list of API calls issued.  (Negative configured lookbacks
    are outside the modelled range; `Int.toNat` covers the documented
    non-negative configurations.) -/
def programTrace (e : Env) (today : DateT) (nowTs : String)
    (sourceAll : List SourceRow) (targets0 : List TargetRow) :
    List ApiCall × Option String :=
  match moduleInit e with
  | Except.error m => ([], some m)
  | Except.ok lb =>
    let res := run today lb.toNat nowTs sourceAll targets0
    (res.1.calls, res.2)

/-! ## Derived predicates and the pure fold used for reasoning -/

/-- Decoded date of a property, collapsing the error case (only used under the
    hypothesis that decoding succeeded). -/
def dOf (p : Option DateProp) : Option DateT :=
  match get_date p with
  | Except.ok x => x
  | Except.error _ => none

/-- Both date properties of the row decode without an exception. -/
def decodes (r : SourceRow) : Bool :=
  match get_date r.leaveStartDate, get_date r.tillDate with
  | Except.ok _, Except.ok _ => true
  | _, _ => false

/-- The row reaches the upsert: both dates present and the end date is not
    before the cutoff. -/
def processes (cutoff : DateT) (r : SourceRow) : Bool :=
  match dOf r.leaveStartDate, dOf r.tillDate with
  | some _, some e => !(dateLt e cutoff)
  | _, _ => false

/-- The row hits the skip branch: a missing start or end date, or an end date
    strictly before the cutoff. -/
def skipsRow (cutoff : DateT) (r : SourceRow) : Bool :=
  match dOf r.leaveStartDate, dOf r.tillDate with
  | some _, some e => dateLt e cutoff
  | _, _ => true

/-- Exception-free restatement of `runLoop` as a pure fold. -/
def loopF (cutoff : DateT) (nowTs : String) :
    RunState → List SourceRow → RunState
  | st, [] => st
  | st, r :: rs =>
    loopF cutoff nowTs
      (stepRow cutoff nowTs st r (dOf r.leaveStartDate) (dOf r.tillDate)) rs

/-! ## The run invariant: the index is sound for the target dataset -/

/-- Invariant threaded through the loop: target ids are distinct, ids the
    fresh supply has not reached yet do not occur, and every index entry points
    at a target row that currently stores that key. -/
structure InvS (st : RunState) : Prop where
  nodup : (st.targets.map TargetRow.id).Nodup
  fresh : ∀ t ∈ st.targets, ∀ n, st.nextId ≤ n → t.id ≠ freshId n
  sound : ∀ k pid, lookupKey k st.index = some pid →
    ∃ t ∈ st.targets, t.id = pid ∧ t.keyOf = some k

/-! ## Claim-side definitions and concrete rows -/

def isCreateKey (k : String) : ApiCall → Bool
  | ApiCall.createPage p => p.syncKey = k
  | _ => false

/-- ISO week label carried by an upsert call, if any. -/
def callIsoWeek : ApiCall → Option String
  | ApiCall.createPage p => some p.isoWeek
  | ApiCall.updatePage _ p => some p.isoWeek
  | _ => none

def lowerChar (c : Char) : Char :=
  if 65 ≤ c.toNat ∧ c.toNat ≤ 90 then Char.ofNat (c.toNat + 32) else c

/-- Trimmed, lower-cased (ASCII) form of a status string. -/
def normStatus (s : String) : String :=
  String.mk ((stripChars s.data).map lowerChar)

/-- Modelled from the claim (C2): the approval gate the claim describes — the
    record's raw status-field value, trimmed and compared case-insensitively
    against the literal "approved"; a missing status is not approved. -/
def claimApprovalGate (r : SourceRow) : Bool :=
  normStatus (r.statusRawName.getD "") = "approved"

def leadsWith : List Char → List Char → Bool
  | [], _ => true
  | _ :: _, [] => false
  | a :: as, b :: bs => a = b && leadsWith as bs

def hasChunk (needle : List Char) : List Char → Bool
  | [] => leadsWith needle []
  | c :: cs => leadsWith needle (c :: cs) || hasChunk needle cs

/-- Case-insensitive test for the substring "half" in the leave category. -/
def containsHalf (cat : Option String) : Bool :=
  hasChunk "half".data ((cat.getD "").data.map lowerChar)

def claimWeightPerDay (cat : Option String) : ℚ :=
  if containsHalf cat then 1 / 2 else 1

def addWeight (k : String) (w : ℚ) : List (String × ℚ) → List (String × ℚ)
  | [] => [(k, w)]
  | (a, b) :: rest =>
    if a = k then (a, b + w) :: rest else (a, b) :: addWeight k w rest

/-- Every calendar day from `s` to `e` inclusive. -/
def daysFromTo (s e : DateT) : List DateT :=
  (List.range (daysFromCivil e + 1 - daysFromCivil s)).map
    (fun i => civilFromDays (daysFromCivil s + i))

/-- Modelled from the claim (C3): the per-day interval expander the claim
    describes — iterate every calendar day from start to end inclusive,
    optionally skipping Saturday/Sunday, and accumulate a per-ISO-week weight of
    1.0 per day, or 0.5 when the category contains "half" case-insensitively. -/
def claimExpandBuckets (s e : DateT) (cat : Option String)
    (workingDaysOnly : Bool) : List (String × ℚ) :=
  (daysFromTo s e).foldl
    (fun acc d =>
      if workingDaysOnly && decide (6 ≤ isoWeekday d) then acc
      else addWeight (isoWeekStrOf d) (claimWeightPerDay cat) acc) []

/-- Approved row whose raw status field says approved (after normalization)
    while its Status formula displays "Pending". -/
def row2 : SourceRow :=
  { id := "page-2"
  , statusFormulaString := some "Pending"
  , statusRawName := some " Approved "
  , leaveStartDate := some ⟨some ⟨some "2025-01-20"⟩⟩
  , tillDate := some ⟨some ⟨some "2025-01-24"⟩⟩
  , leaveType := none
  , requestor := some ["user-2"]
  , clientUnavailability := none }

/-- Approved row spanning three ISO weeks (Wed 2025-01-01 .. Mon 2025-01-13). -/
def row3 : SourceRow :=
  { id := "page-3"
  , statusFormulaString := some "Approved"
  , statusRawName := some "Approved"
  , leaveStartDate := some ⟨some ⟨some "2025-01-01"⟩⟩
  , tillDate := some ⟨some ⟨some "2025-01-13"⟩⟩
  , leaveType := none
  , requestor := some ["user-3"]
  , clientUnavailability := none }

/-- Approved row with a present start date and an absent Till Date. -/
def row4 : SourceRow :=
  { id := "page-4"
  , statusFormulaString := some "Approved"
  , statusRawName := some "Approved"
  , leaveStartDate := some ⟨some ⟨some "2025-01-20"⟩⟩
  , tillDate := none
  , leaveType := none
  , requestor := some ["user-4"]
  , clientUnavailability := none }

/-- Approved row with valid dates and an empty requestor set. -/
def row5 : SourceRow :=
  { id := "page-5"
  , statusFormulaString := some "Approved"
  , statusRawName := some "Approved"
  , leaveStartDate := some ⟨some ⟨some "2025-01-20"⟩⟩
  , tillDate := some ⟨some ⟨some "2025-01-24"⟩⟩
  , leaveType := none
  , requestor := some []
  , clientUnavailability := none }

/-- Approved row used twice in one run to exercise duplicate sync keys. -/
def row8 : SourceRow :=
  { id := "page-8"
  , statusFormulaString := some "Approved"
  , statusRawName := some "Approved"
  , leaveStartDate := some ⟨some ⟨some "2025-01-20"⟩⟩
  , tillDate := some ⟨some ⟨some "2025-01-24"⟩⟩
  , leaveType := none
  , requestor := some ["user-8"]
  , clientUnavailability := none }

/-- Two fetches of the same logical record in different runs: same page id,
    different mutable fields. -/
def row9a : SourceRow :=
  { id := "page-9"
  , statusFormulaString := some "Approved"
  , statusRawName := some "Approved"
  , leaveStartDate := some ⟨some ⟨some "2025-01-20"⟩⟩
  , tillDate := some ⟨some ⟨some "2025-01-24"⟩⟩
  , leaveType := some ⟨some "Annual"⟩
  , requestor := some ["user-9"]
  , clientUnavailability := none }

def row9b : SourceRow :=
  { id := "page-9"
  , statusFormulaString := some "Approved"
  , statusRawName := some "approved"
  , leaveStartDate := some ⟨some ⟨some "2025-02-03"⟩⟩
  , tillDate := some ⟨some ⟨some "2025-02-07"⟩⟩
  , leaveType := some ⟨some "Half Day"⟩
  , requestor := some ["user-9", "user-10"]
  , clientUnavailability := some ⟨some "formula", some true, none⟩ }

/-- Approved row whose end date lies strictly before the 45-day cutoff of
    2025-02-01. -/
def row10 : SourceRow :=
  { id := "page-10"
  , statusFormulaString := some "Approved"
  , statusRawName := some "Approved"
  , leaveStartDate := some ⟨some ⟨some "2024-10-01"⟩⟩
  , tillDate := some ⟨some ⟨some "2024-10-03"⟩⟩
  , leaveType := none
  , requestor := some ["user-10"]
  , clientUnavailability := none }

/-- Concrete instantiation of the second-run idempotence theorem: one approved
    source row, an initially empty target store. -/
def w1row : SourceRow :=
  { id := "page-1"
  , statusFormulaString := some "Approved"
  , statusRawName := some "Approved"
  , leaveStartDate := some ⟨some ⟨some "2025-01-20"⟩⟩
  , tillDate := some ⟨some ⟨some "2025-01-24"⟩⟩
  , leaveType := some ⟨some "Annual"⟩
  , requestor := some ["user-1"]
  , clientUnavailability := none }

/-! ## Lemmas -/

theorem dOf_of_ok {p : Option DateProp} {x : Option DateT}
    (h : get_date p = Except.ok x) : dOf p = x := by
  simp [dOf, h]

theorem processes_iff {cutoff : DateT} {r : SourceRow} :
    processes cutoff r = true ↔
      ∃ sd ed, dOf r.leaveStartDate = some sd ∧ dOf r.tillDate = some ed ∧
        dateLt ed cutoff = false := by
  unfold processes
  cases hs : dOf r.leaveStartDate <;> cases he : dOf r.tillDate <;> simp

theorem skipsRow_eq_not_processes (cutoff : DateT) (r : SourceRow) :
    skipsRow cutoff r = !(processes cutoff r) := by
  unfold skipsRow processes
  cases dOf r.leaveStartDate <;> cases dOf r.tillDate <;> simp

/-- The loop terminates normally exactly when every row's dates decode, and
    then it computes the pure fold. -/
theorem runLoop_none_iff (cutoff : DateT) (nowTs : String) :
    ∀ (rs : List SourceRow) (st st' : RunState),
      runLoop cutoff nowTs st rs = (st', none) ↔
        ((∀ r ∈ rs, decodes r = true) ∧ st' = loopF cutoff nowTs st rs) := by
  intro rs
  induction rs with
  | nil =>
    intro st st'
    constructor
    · intro h
      have h1 : st = st' := congrArg Prod.fst h
      exact ⟨fun r hr => absurd hr (List.not_mem_nil r), h1.symm⟩
    · rintro ⟨-, rfl⟩
      rfl
  | cons r rs ih =>
    intro st st'
    simp only [runLoop, loopF]
    cases h1 : get_date r.leaveStartDate with
    | error m =>
      constructor
      · intro h
        simp at h
      · rintro ⟨hdec, -⟩
        have := hdec r (by simp)
        simp [decodes, h1] at this
    | ok s =>
      cases h2 : get_date r.tillDate with
      | error m =>
        constructor
        · intro h
          simp at h
        · rintro ⟨hdec, -⟩
          have := hdec r (by simp)
          simp [decodes, h1, h2] at this
      | ok e =>
        rw [dOf_of_ok h1, dOf_of_ok h2, ih]
        have hr : decodes r = true := by simp [decodes, h1, h2]
        simp [List.forall_mem_cons, hr]

/-! ## Effect lemmas for a single loop step -/

theorem stepRow_skip_left (cutoff : DateT) (nowTs : String) (st : RunState)
    (r : SourceRow) (e : Option DateT) :
    stepRow cutoff nowTs st r none e = { st with skipped := st.skipped + 1 } := by
  cases e <;> rfl

theorem stepRow_skip_right (cutoff : DateT) (nowTs : String) (st : RunState)
    (r : SourceRow) (sd : DateT) :
    stepRow cutoff nowTs st r (some sd) none =
      { st with skipped := st.skipped + 1 } := rfl

theorem stepRow_skip_cutoff (cutoff : DateT) (nowTs : String) (st : RunState)
    (r : SourceRow) (sd ed : DateT) (h : dateLt ed cutoff = true) :
    stepRow cutoff nowTs st r (some sd) (some ed) =
      { st with skipped := st.skipped + 1 } := by
  simp [stepRow, h]

theorem stepRow_update (cutoff : DateT) (nowTs : String) (st : RunState)
    (r : SourceRow) (sd ed : DateT) (pid : String)
    (h : dateLt ed cutoff = false)
    (hl : lookupKey (syncKeyOf r) st.index = some pid) :
    stepRow cutoff nowTs st r (some sd) (some ed) =
      { st with
        updated := st.updated + 1
        targets := updateTargets st.targets pid (syncKeyOf r)
        calls := st.calls ++ [ApiCall.updatePage pid (payloadOf nowTs r sd ed)] } := by
  have hk : (payloadOf nowTs r sd ed).syncKey = syncKeyOf r := rfl
  simp [stepRow, h, hk, hl]

theorem stepRow_create (cutoff : DateT) (nowTs : String) (st : RunState)
    (r : SourceRow) (sd ed : DateT)
    (h : dateLt ed cutoff = false)
    (hl : lookupKey (syncKeyOf r) st.index = none) :
    stepRow cutoff nowTs st r (some sd) (some ed) =
      { st with
        created := st.created + 1
        index := (syncKeyOf r, freshId st.nextId) :: st.index
        targets := st.targets ++ [{ id := freshId st.nextId, syncKey := [syncKeyOf r] }]
        nextId := st.nextId + 1
        calls := st.calls ++ [ApiCall.createPage (payloadOf nowTs r sd ed)] } := by
  have hk : (payloadOf nowTs r sd ed).syncKey = syncKeyOf r := rfl
  simp [stepRow, h, hk, hl]

/-- A row that does not reach the upsert only bumps the skipped counter. -/
theorem stepRow_skip_of_not_processes {cutoff : DateT} {r : SourceRow}
    (nowTs : String) (st : RunState) (h : processes cutoff r = false) :
    stepRow cutoff nowTs st r (dOf r.leaveStartDate) (dOf r.tillDate) =
      { st with skipped := st.skipped + 1 } := by
  unfold processes at h
  cases hs : dOf r.leaveStartDate with
  | none => exact stepRow_skip_left cutoff nowTs st r _
  | some sd =>
    cases he : dOf r.tillDate with
    | none => exact stepRow_skip_right cutoff nowTs st r sd
    | some ed =>
      rw [hs, he] at h
      simp at h
      exact stepRow_skip_cutoff cutoff nowTs st r sd ed h

/-! ## Counter accounting over the loop -/

theorem stepRow_counts_of_processes {cutoff : DateT} {r : SourceRow}
    (nowTs : String) (st : RunState) (h : processes cutoff r = true) :
    (stepRow cutoff nowTs st r (dOf r.leaveStartDate) (dOf r.tillDate)).skipped
        = st.skipped ∧
      (stepRow cutoff nowTs st r (dOf r.leaveStartDate) (dOf r.tillDate)).created +
        (stepRow cutoff nowTs st r (dOf r.leaveStartDate) (dOf r.tillDate)).updated
        = st.created + st.updated + 1 := by
  obtain ⟨sd, ed, hs, he, hlt⟩ := processes_iff.mp h
  rw [hs, he]
  cases hl : lookupKey (syncKeyOf r) st.index with
  | some pid =>
    rw [stepRow_update cutoff nowTs st r sd ed pid hlt hl]
    exact ⟨rfl, rfl⟩
  | none =>
    rw [stepRow_create cutoff nowTs st r sd ed hlt hl]
    refine ⟨rfl, ?_⟩
    show st.created + 1 + st.updated = st.created + st.updated + 1
    omega

theorem loopF_skipped (cutoff : DateT) (nowTs : String) :
    ∀ (rs : List SourceRow) (st : RunState),
      (loopF cutoff nowTs st rs).skipped =
        st.skipped + rs.countP (skipsRow cutoff) := by
  intro rs
  induction rs with
  | nil => intro st; simp [loopF]
  | cons r rs ih =>
    intro st
    rw [loopF, ih, List.countP_cons, skipsRow_eq_not_processes]
    cases hp : processes cutoff r with
    | false =>
      rw [stepRow_skip_of_not_processes nowTs st hp]
      simp
      omega
    | true =>
      have := (stepRow_counts_of_processes nowTs st hp).1
      rw [this]
      simp

theorem loopF_created_updated (cutoff : DateT) (nowTs : String) :
    ∀ (rs : List SourceRow) (st : RunState),
      (loopF cutoff nowTs st rs).created + (loopF cutoff nowTs st rs).updated =
        st.created + st.updated + rs.countP (processes cutoff) := by
  intro rs
  induction rs with
  | nil => intro st; simp [loopF]
  | cons r rs ih =>
    intro st
    rw [loopF, ih, List.countP_cons]
    cases hp : processes cutoff r with
    | false =>
      rw [stepRow_skip_of_not_processes nowTs st hp]
      simp
    | true =>
      have := (stepRow_counts_of_processes nowTs st hp).2
      rw [this]
      simp
      omega

/-! ## Index and target-set machinery -/

theorem freshId_inj {a b : Nat} (h : freshId a = freshId b) : a = b := by
  have hl := congrArg String.length h
  simpa [freshId, String.length] using hl

theorem lookupKey_cons (k a b : String) (rest : List (String × String)) :
    lookupKey k ((a, b) :: rest) =
      if k = a then some b else lookupKey k rest := rfl

theorem updateTargets_map_id (ts : List TargetRow) (pid key : String) :
    (updateTargets ts pid key).map TargetRow.id = ts.map TargetRow.id := by
  induction ts with
  | nil => rfl
  | cons t ts ih =>
    simp only [updateTargets, List.map_cons] at ih ⊢
    by_cases h : t.id = pid <;> simp [h, ih]

theorem mem_updateTargets_of_ne {t : TargetRow} {ts : List TargetRow}
    {pid key : String} (ht : t ∈ ts) (hne : t.id ≠ pid) :
    t ∈ updateTargets ts pid key := by
  have : t = if t.id = pid then { t with syncKey := [key] } else t := by
    simp [hne]
  rw [updateTargets]
  exact this ▸ List.mem_map_of_mem _ ht

theorem mem_updateTargets_of_eq {t : TargetRow} {ts : List TargetRow}
    {pid key : String} (ht : t ∈ ts) (heq : t.id = pid) :
    { t with syncKey := [key] } ∈ updateTargets ts pid key := by
  have : { t with syncKey := [key] } =
      if t.id = pid then { t with syncKey := [key] } else t := by
    simp [heq]
  rw [updateTargets]
  exact this ▸ List.mem_map_of_mem _ ht

theorem buildIndexAux_sound :
    ∀ (ts : List TargetRow) (acc : List (String × String)) (k pid : String),
      lookupKey k (buildIndexAux acc ts) = some pid →
        (∃ t ∈ ts, t.id = pid ∧ t.keyOf = some k) ∨ lookupKey k acc = some pid := by
  intro ts
  induction ts with
  | nil =>
    intro acc k pid h
    exact Or.inr h
  | cons t ts ih =>
    intro acc k pid h
    rw [buildIndexAux] at h
    cases hk : t.keyOf with
    | some k0 =>
      rw [hk] at h
      rcases ih _ k pid h with hmem | hacc
      · obtain ⟨u, hu, hid, hkey⟩ := hmem
        exact Or.inl ⟨u, List.mem_cons_of_mem t hu, hid, hkey⟩
      · rw [lookupKey_cons] at hacc
        by_cases hkk : k = k0
        · subst hkk
          simp at hacc
          exact Or.inl ⟨t, List.mem_cons_self t ts, hacc, hk⟩
        · rw [if_neg hkk] at hacc
          exact Or.inr hacc
    | none =>
      rw [hk] at h
      rcases ih _ k pid h with hmem | hacc
      · obtain ⟨u, hu, hid, hkey⟩ := hmem
        exact Or.inl ⟨u, List.mem_cons_of_mem t hu, hid, hkey⟩
      · exact Or.inr hacc

theorem buildIndexAux_complete :
    ∀ (ts : List TargetRow) (acc : List (String × String)) (k : String),
      ((∃ t ∈ ts, t.keyOf = some k) ∨ (lookupKey k acc).isSome = true) →
        (lookupKey k (buildIndexAux acc ts)).isSome = true := by
  intro ts
  induction ts with
  | nil =>
    intro acc k h
    rcases h with ⟨t, ht, -⟩ | h
    · exact absurd ht (List.not_mem_nil t)
    · exact h
  | cons t ts ih =>
    intro acc k h
    rw [buildIndexAux]
    apply ih
    rcases h with ⟨u, hu, hkey⟩ | hacc
    · rcases List.mem_cons.mp hu with rfl | hu
      · right
        rw [hkey, lookupKey_cons]
        simp
      · exact Or.inl ⟨u, hu, hkey⟩
    · right
      cases hk : t.keyOf with
      | some k0 =>
        rw [lookupKey_cons]
        by_cases hkk : k = k0 <;> simp [hkk, hacc]
      | none => exact hacc

theorem buildIndex_sound {ts : List TargetRow} {k pid : String}
    (h : lookupKey k (buildIndex ts) = some pid) :
    ∃ t ∈ ts, t.id = pid ∧ t.keyOf = some k := by
  rcases buildIndexAux_sound ts [] k pid h with hmem | habs
  · exact hmem
  · cases habs

theorem buildIndex_complete {ts : List TargetRow} {k : String}
    (h : ∃ t ∈ ts, t.keyOf = some k) :
    (lookupKey k (buildIndex ts)).isSome = true :=
  buildIndexAux_complete ts [] k (Or.inl h)

theorem mem_updateTargets_src {t' : TargetRow} {ts : List TargetRow}
    {pid key : String} (h : t' ∈ updateTargets ts pid key) :
    ∃ t ∈ ts, t'.id = t.id := by
  rw [updateTargets] at h
  obtain ⟨t, ht, rfl⟩ := List.mem_map.mp h
  refine ⟨t, ht, ?_⟩
  by_cases hid : t.id = pid <;> simp [hid]

theorem stepRow_inv {st : RunState} (cutoff : DateT) (nowTs : String)
    (r : SourceRow) (s e : Option DateT) (inv : InvS st) :
    InvS (stepRow cutoff nowTs st r s e) := by
  cases s with
  | none =>
    rw [stepRow_skip_left]
    exact ⟨inv.nodup, inv.fresh, inv.sound⟩
  | some sd =>
    cases e with
    | none =>
      rw [stepRow_skip_right]
      exact ⟨inv.nodup, inv.fresh, inv.sound⟩
    | some ed =>
      cases hlt : dateLt ed cutoff with
      | true =>
        rw [stepRow_skip_cutoff cutoff nowTs st r sd ed hlt]
        exact ⟨inv.nodup, inv.fresh, inv.sound⟩
      | false =>
        cases hl : lookupKey (syncKeyOf r) st.index with
        | some pid =>
          rw [stepRow_update cutoff nowTs st r sd ed pid hlt hl]
          obtain ⟨u, hu, huid, hukey⟩ := inv.sound _ _ hl
          refine ⟨?_, ?_, ?_⟩
          · show ((updateTargets st.targets pid (syncKeyOf r)).map TargetRow.id).Nodup
            rw [updateTargets_map_id]
            exact inv.nodup
          · intro t' ht' n hn
            obtain ⟨t, ht, hid⟩ := mem_updateTargets_src ht'
            rw [hid]
            exact inv.fresh t ht n hn
          · intro k'' pid'' hlk
            obtain ⟨t, ht, htid, htkey⟩ := inv.sound _ _ hlk
            by_cases hpp : pid'' = pid
            · subst hpp
              have hteq : t = u :=
                List.inj_on_of_nodup_map inv.nodup ht hu (htid.trans huid.symm)
              subst hteq
              have hkk : k'' = syncKeyOf r :=
                Option.some.inj (htkey.symm.trans hukey)
              have hmem := @mem_updateTargets_of_eq t st.targets pid'' (syncKeyOf r) ht htid
              refine ⟨{ t with syncKey := [syncKeyOf r] }, hmem, htid, ?_⟩
              rw [hkk]
              rfl
            · refine ⟨t, mem_updateTargets_of_ne ht ?_, htid, htkey⟩
              rw [htid]
              exact hpp
        | none =>
          rw [stepRow_create cutoff nowTs st r sd ed hlt hl]
          refine ⟨?_, ?_, ?_⟩
          · show ((st.targets ++
              [({ id := freshId st.nextId, syncKey := [syncKeyOf r] } : TargetRow)]).map
                TargetRow.id).Nodup
            rw [List.map_append, List.nodup_append]
            refine ⟨inv.nodup, by simp, ?_⟩
            intro a ha hb
            simp at hb
            obtain ⟨t, ht, htid⟩ := List.mem_map.mp ha
            exact inv.fresh t ht st.nextId (Nat.le_refl _) (htid.trans hb)
          · intro t' ht' n hn
            have hn' : st.nextId + 1 ≤ n := hn
            rcases List.mem_append.mp ht' with ht' | ht'
            · exact inv.fresh t' ht' n (Nat.le_of_succ_le hn')
            · simp at ht'
              rw [ht']
              intro hcon
              have := freshId_inj hcon
              omega
          · intro k'' pid'' hlk
            rw [lookupKey_cons] at hlk
            by_cases hkk : k'' = syncKeyOf r
            · rw [if_pos hkk] at hlk
              have hpid : freshId st.nextId = pid'' := by simpa using hlk
              subst hkk
              exact ⟨{ id := freshId st.nextId, syncKey := [syncKeyOf r] },
                List.mem_append_right _ (by simp), hpid, rfl⟩
            · rw [if_neg hkk] at hlk
              obtain ⟨t, ht, htid, htkey⟩ := inv.sound _ _ hlk
              exact ⟨t, List.mem_append_left _ ht, htid, htkey⟩

theorem stepRow_index_mono {st : RunState} (cutoff : DateT) (nowTs : String)
    (r : SourceRow) (s e : Option DateT) (k : String)
    (h : (lookupKey k st.index).isSome = true) :
    (lookupKey k (stepRow cutoff nowTs st r s e).index).isSome = true := by
  cases s with
  | none => rw [stepRow_skip_left]; exact h
  | some sd =>
    cases e with
    | none => rw [stepRow_skip_right]; exact h
    | some ed =>
      cases hlt : dateLt ed cutoff with
      | true => rw [stepRow_skip_cutoff cutoff nowTs st r sd ed hlt]; exact h
      | false =>
        cases hl : lookupKey (syncKeyOf r) st.index with
        | some pid =>
          rw [stepRow_update cutoff nowTs st r sd ed pid hlt hl]
          exact h
        | none =>
          rw [stepRow_create cutoff nowTs st r sd ed hlt hl]
          show (lookupKey k ((syncKeyOf r, freshId st.nextId) :: st.index)).isSome = true
          rw [lookupKey_cons]
          by_cases hkk : k = syncKeyOf r <;> simp [hkk, h]

/-- After stepping a row that reaches the upsert, its key is in the index. -/
theorem stepRow_key_isSome {cutoff : DateT} {r : SourceRow}
    (nowTs : String) (st : RunState) (h : processes cutoff r = true) :
    (lookupKey (syncKeyOf r)
      (stepRow cutoff nowTs st r (dOf r.leaveStartDate) (dOf r.tillDate)).index).isSome
      = true := by
  obtain ⟨sd, ed, hs, he, hlt⟩ := processes_iff.mp h
  rw [hs, he]
  cases hl : lookupKey (syncKeyOf r) st.index with
  | some pid =>
    rw [stepRow_update cutoff nowTs st r sd ed pid hlt hl]
    simp [hl]
  | none =>
    rw [stepRow_create cutoff nowTs st r sd ed hlt hl]
    show (lookupKey (syncKeyOf r)
      ((syncKeyOf r, freshId st.nextId) :: st.index)).isSome = true
    rw [lookupKey_cons]
    simp

theorem loopF_inv (cutoff : DateT) (nowTs : String) :
    ∀ (rs : List SourceRow) (st : RunState), InvS st →
      InvS (loopF cutoff nowTs st rs) := by
  intro rs
  induction rs with
  | nil => intro st inv; exact inv
  | cons r rs ih =>
    intro st inv
    exact ih _ (stepRow_inv cutoff nowTs r _ _ inv)

theorem loopF_index_mono (cutoff : DateT) (nowTs : String) :
    ∀ (rs : List SourceRow) (st : RunState) (k : String),
      (lookupKey k st.index).isSome = true →
      (lookupKey k (loopF cutoff nowTs st rs).index).isSome = true := by
  intro rs
  induction rs with
  | nil => intro st k h; exact h
  | cons r rs ih =>
    intro st k h
    exact ih _ k (stepRow_index_mono cutoff nowTs r _ _ k h)

/-- Every row that reaches the upsert leaves its key in the final index. -/
theorem loopF_key_present (cutoff : DateT) (nowTs : String) :
    ∀ (rs : List SourceRow) (st : RunState) (r : SourceRow),
      r ∈ rs → processes cutoff r = true →
      (lookupKey (syncKeyOf r) (loopF cutoff nowTs st rs).index).isSome = true := by
  intro rs
  induction rs with
  | nil =>
    intro st r hr
    exact absurd hr (List.not_mem_nil r)
  | cons r0 rs ih =>
    intro st r hr hp
    rcases List.mem_cons.mp hr with rfl | hr
    · exact loopF_index_mono cutoff nowTs rs _ _ (stepRow_key_isSome nowTs st hp)
    · exact ih _ r hr hp

/-- When every processed key is already in the index, the whole loop takes the
    update path: nothing is created and each processed row counts once as
    updated. -/
theorem loopF_all_update (cutoff : DateT) (nowTs : String) :
    ∀ (rs : List SourceRow) (st : RunState),
      (∀ r ∈ rs, processes cutoff r = true →
        (lookupKey (syncKeyOf r) st.index).isSome = true) →
      (loopF cutoff nowTs st rs).created = st.created ∧
        (loopF cutoff nowTs st rs).updated =
          st.updated + rs.countP (processes cutoff) := by
  intro rs
  induction rs with
  | nil => intro st h; simp [loopF]
  | cons r rs ih =>
    intro st h
    rw [loopF, List.countP_cons]
    cases hp : processes cutoff r with
    | false =>
      rw [stepRow_skip_of_not_processes nowTs st hp]
      have := ih { st with skipped := st.skipped + 1 }
        (fun r' hr' hp' => h r' (List.mem_cons_of_mem r hr') hp')
      simpa [hp] using this
    | true =>
      obtain ⟨sd, ed, hs, he, hlt⟩ := processes_iff.mp hp
      have hsome := h r (List.mem_cons_self r rs) hp
      obtain ⟨pid, hl⟩ := Option.isSome_iff_exists.mp hsome
      rw [hs, he, stepRow_update cutoff nowTs st r sd ed pid hlt hl]
      have := ih
        { st with
          updated := st.updated + 1
          targets := updateTargets st.targets pid (syncKeyOf r)
          calls := st.calls ++ [ApiCall.updatePage pid (payloadOf nowTs r sd ed)] }
        (fun r' hr' hp' => h r' (List.mem_cons_of_mem r hr') hp')
      rcases this with ⟨hc, hu⟩
      refine ⟨hc, ?_⟩
      rw [hu]
      simp [hp]
      omega

/-! ## Claim theorems -/

theorem run_eq (today : DateT) (lb : Nat) (now : String)
    (src : List SourceRow) (t0 : List TargetRow) :
    run today lb now src t0 =
      runLoop (dateSubDays today lb) now
        { created := 0, updated := 0, skipped := 0
        , index := buildIndex t0, targets := t0, nextId := 0
        , calls := [ApiCall.querySource, ApiCall.queryTarget] }
        (src.filter matchesSourceFilter) := rfl

/-- C1: running the reconciler twice on an unchanged source dataset performs
    zero record creations on the second run: the second run rebuilds the target
    index from the stored Sync Key fields, finds every processed record's key
    there, and takes the update path, so created = 0 and every processed record
    counts as updated (their number being the first run's created + updated);
    the skipped tally is unchanged.  Hypotheses: the initial target pages have
    distinct ids that do not collide with the fresh-id supply, and the first
    run terminated without an exception. -/
theorem second_run_creates_nothing
    (today : DateT) (lb : Nat) (now1 now2 : String)
    (src : List SourceRow) (t0 : List TargetRow) (r1 : RunState)
    (hids : (t0.map TargetRow.id).Nodup)
    (hfresh : ∀ t ∈ t0, ∀ n, t.id ≠ freshId n)
    (h1 : run today lb now1 src t0 = (r1, none)) :
    ∃ r2, run today lb now2 src r1.targets = (r2, none) ∧
      r2.created = 0 ∧ r2.updated = r1.created + r1.updated ∧
      r2.skipped = r1.skipped := by
  rw [run_eq] at h1
  obtain ⟨hdec, hr1⟩ := (runLoop_none_iff _ _ _ _ _).mp h1
  have inv0 : InvS
      { created := 0, updated := 0, skipped := 0
      , index := buildIndex t0, targets := t0, nextId := 0
      , calls := [ApiCall.querySource, ApiCall.queryTarget] } :=
    ⟨hids, fun t ht n _ => hfresh t ht n, fun _ _ h => buildIndex_sound h⟩
  have inv1 : InvS r1 := by
    rw [hr1]
    exact loopF_inv _ _ _ _ inv0
  have hidx2 : ∀ r ∈ src.filter matchesSourceFilter,
      processes (dateSubDays today lb) r = true →
      (lookupKey (syncKeyOf r) (buildIndex r1.targets)).isSome = true := by
    intro r hr hp
    have hkey : (lookupKey (syncKeyOf r) r1.index).isSome = true := by
      rw [hr1]
      exact loopF_key_present _ _ _ _ r hr hp
    obtain ⟨pid, hpid⟩ := Option.isSome_iff_exists.mp hkey
    obtain ⟨t, ht, -, htkey⟩ := inv1.sound _ _ hpid
    exact buildIndex_complete ⟨t, ht, htkey⟩
  rw [run_eq]
  have hupd := loopF_all_update (dateSubDays today lb) now2
    (src.filter matchesSourceFilter)
    { created := 0, updated := 0, skipped := 0
    , index := buildIndex r1.targets, targets := r1.targets, nextId := 0
    , calls := [ApiCall.querySource, ApiCall.queryTarget] } hidx2
  refine ⟨_, (runLoop_none_iff _ _ _ _ _).mpr ⟨hdec, rfl⟩, ?_, ?_, ?_⟩
  · exact hupd.1
  · rw [hupd.2, hr1]
    have := loopF_created_updated (dateSubDays today lb) now1
      (src.filter matchesSourceFilter)
      { created := 0, updated := 0, skipped := 0
      , index := buildIndex t0, targets := t0, nextId := 0
      , calls := [ApiCall.querySource, ApiCall.queryTarget] }
    rw [this]
    simp
  · rw [loopF_skipped, hr1, loopF_skipped]

theorem second_run_creates_nothing_witness :
    ∃ r1 r2, run ⟨2025, 2, 1⟩ 45 "ts1" [w1row] [] = (r1, none) ∧
      run ⟨2025, 2, 1⟩ 45 "ts2" [w1row] r1.targets = (r2, none) ∧
      r2.created = 0 ∧ r2.updated = r1.created + r1.updated ∧
      r2.skipped = r1.skipped := by
  obtain ⟨r1, h1⟩ : ∃ r1, run ⟨2025, 2, 1⟩ 45 "ts1" [w1row] [] = (r1, none) :=
    ⟨(run ⟨2025, 2, 1⟩ 45 "ts1" [w1row] []).1, by rfl⟩
  obtain ⟨r2, h2, hc, hu, hs⟩ :=
    second_run_creates_nothing ⟨2025, 2, 1⟩ 45 "ts1" "ts2" [w1row] [] r1
      (by simp) (by simp) h1
  exact ⟨r1, r2, h1, h2, hc, hu, hs⟩

/-! ## C2: the approval gate -/

/-- C2 counterexample: the claim says the gate passes exactly when the trimmed,
    case-insensitive raw status equals "approved".  On `row2` — raw status
    " Approved ", Status formula "Pending" — the claim's gate passes but the
    script's server-side filter rejects the row, because the script filters on
    the formula display value with exact case-sensitive equality and never
    reads the raw status field. -/
theorem approval_gate_counterexample :
    claimApprovalGate row2 = true ∧ matchesSourceFilter row2 = false := by
  constructor
  · rfl
  · rfl

/-- C2 amended: a source record passes the approval gate iff its "Status"
    formula string equals the exact literal "Approved"; no trimming or case
    folding is applied, and the raw status field is never consulted (changing
    it cannot change the gate's verdict). -/
theorem approval_gate_exact :
    (∀ r : SourceRow,
      matchesSourceFilter r = true ↔ r.statusFormulaString = some "Approved") ∧
    (∀ (r : SourceRow) (v : Option String),
      matchesSourceFilter { r with statusRawName := v } = matchesSourceFilter r) := by
  constructor
  · intro r
    simp [matchesSourceFilter]
  · intro r v
    rfl

/-! ## C4: absent end date -/

/-- C4 counterexample: the claim says a record with a present start date and an
    absent end date is processed with the end defaulting to the start.  Running
    on `row4` (start 2025-01-20, Till Date absent) the script skips the record:
    skipped = 1 and no create or update happens. -/
theorem end_default_counterexample :
    ∃ res, run ⟨2025, 2, 1⟩ 45 "ts" [row4] [] = (res, none) ∧
      res.skipped = 1 ∧ res.created = 0 ∧ res.updated = 0 := by
  exact ⟨(run ⟨2025, 2, 1⟩ 45 "ts" [row4] []).1, by rfl, by rfl, by rfl, by rfl⟩

/-- C4 amended: a source record whose end-date property decodes to `None` takes
    the skip branch — only the skipped counter moves — for every start value;
    no defaulting of the end date to the start date occurs. -/
theorem missing_end_skips (cutoff : DateT) (nowTs : String) (st : RunState)
    (r : SourceRow) (s : Option DateT) :
    stepRow cutoff nowTs st r s none = { st with skipped := st.skipped + 1 } := by
  cases s with
  | none => exact stepRow_skip_left cutoff nowTs st r none
  | some sd => exact stepRow_skip_right cutoff nowTs st r sd

/-! ## C5: skip versus reject accounting -/

/-- C5 counterexample: the claim says an approved record with an empty
    requestor set increments skipped, and that the summary reports a rejected
    count.  Running on `row5` (approved, valid dates, no requestors) the script
    creates the record — created = 1, skipped = 0 — and its summary line
    carries only created/updated/skipped. -/
theorem skip_reject_counterexample :
    ∃ res, run ⟨2025, 2, 1⟩ 45 "ts" [row5] [] = (res, none) ∧
      res.created = 1 ∧ res.skipped = 0 ∧
      summaryLine res =
        "Availability sync completed | created=1 updated=0 skipped=0" := by
  exact ⟨(run ⟨2025, 2, 1⟩ 45 "ts" [row5] []).1, by rfl, by rfl, by rfl, by rfl⟩

/-- C5 amended: the run keeps only created/updated/skipped counters.  The
    requestor set plays no role in the accounting — replacing it changes none
    of the three counters — and a record whose dates pass the cutoff test is
    always counted as created or updated, never skipped.  (Non-approved rows
    are removed by the server-side filter before the loop and are not tallied
    at all.) -/
theorem requestor_not_consulted :
    (∀ (cutoff : DateT) (nowTs : String) (st : RunState) (r : SourceRow)
        (v : Option (List String)) (s e : Option DateT),
      ((stepRow cutoff nowTs st { r with requestor := v } s e).created,
        (stepRow cutoff nowTs st { r with requestor := v } s e).updated,
        (stepRow cutoff nowTs st { r with requestor := v } s e).skipped) =
      ((stepRow cutoff nowTs st r s e).created,
        (stepRow cutoff nowTs st r s e).updated,
        (stepRow cutoff nowTs st r s e).skipped)) ∧
    (∀ (cutoff : DateT) (nowTs : String) (st : RunState) (r : SourceRow)
        (sd ed : DateT), dateLt ed cutoff = false →
      (stepRow cutoff nowTs st r (some sd) (some ed)).skipped = st.skipped ∧
      (stepRow cutoff nowTs st r (some sd) (some ed)).created +
        (stepRow cutoff nowTs st r (some sd) (some ed)).updated =
          st.created + st.updated + 1) := by
  constructor
  · intro cutoff nowTs st r v s e
    cases s with
    | none => rw [stepRow_skip_left, stepRow_skip_left]
    | some sd =>
      cases e with
      | none => rw [stepRow_skip_right, stepRow_skip_right]
      | some ed =>
        cases hlt : dateLt ed cutoff with
        | true =>
          rw [stepRow_skip_cutoff cutoff nowTs st _ sd ed hlt,
            stepRow_skip_cutoff cutoff nowTs st _ sd ed hlt]
        | false =>
          cases hl : lookupKey (syncKeyOf r) st.index with
          | some pid =>
            rw [stepRow_update cutoff nowTs st r sd ed pid hlt hl,
              stepRow_update cutoff nowTs st { r with requestor := v } sd ed pid
                hlt hl]
          | none =>
            rw [stepRow_create cutoff nowTs st r sd ed hlt hl,
              stepRow_create cutoff nowTs st { r with requestor := v } sd ed
                hlt hl]
  · intro cutoff nowTs st r sd ed hlt
    cases hl : lookupKey (syncKeyOf r) st.index with
    | some pid =>
      rw [stepRow_update cutoff nowTs st r sd ed pid hlt hl]
      exact ⟨rfl, rfl⟩
    | none =>
      rw [stepRow_create cutoff nowTs st r sd ed hlt hl]
      refine ⟨rfl, ?_⟩
      show st.created + 1 + st.updated = st.created + st.updated + 1
      omega

theorem requestor_not_consulted_witness :
    (stepRow ⟨2024, 12, 18⟩ "ts"
        { created := 0, updated := 0, skipped := 0, index := [], targets := []
        , nextId := 0, calls := [] } row5
        (some ⟨2025, 1, 20⟩) (some ⟨2025, 1, 24⟩)).skipped = 0 ∧
      dateLt ⟨2025, 1, 24⟩ ⟨2024, 12, 18⟩ = false := by
  refine ⟨?_, by rfl⟩
  have := (requestor_not_consulted.2 ⟨2024, 12, 18⟩ "ts"
    { created := 0, updated := 0, skipped := 0, index := [], targets := []
    , nextId := 0, calls := [] } row5 ⟨2025, 1, 20⟩ ⟨2025, 1, 24⟩ (by rfl)).1
  exact this

/-! ## C7: decoder totality -/

/-- C7 counterexample: the claim says the decoders return `None` for malformed
    values instead of raising.  On a date property whose start string is not an
    ISO date, `get_date` raises a `ValueError` (an `.error` in the embedding)
    rather than returning `None`. -/
theorem decoder_total_counterexample :
    get_date (some ⟨some ⟨some "not-a-date!!"⟩⟩) =
      Except.error "ValueError: invalid isoformat string" := by
  rfl

/-- C7 amended: `get_formula_string` is total (absent or non-formula properties
    give `None`), and `get_date` gives `None` for an absent property, absent
    date object, absent or empty start string — but a present, non-empty,
    malformed start string raises `ValueError`, while a valid one parses. -/
theorem decoder_tolerance :
    (get_formula_string none = none) ∧
    (∀ p : FormulaProp, p.type ≠ some "formula" →
      get_formula_string (some p) = none) ∧
    (get_date none = Except.ok none) ∧
    (∀ p : DateProp, p.date = none → get_date (some p) = Except.ok none) ∧
    (∀ dobj : DateObj, dobj.start = none →
      get_date (some ⟨some dobj⟩) = Except.ok none) ∧
    (get_date (some ⟨some ⟨some ""⟩⟩) = Except.ok none) ∧
    (∀ s : String, s ≠ "" → fromisoformat (s.take 10) = none →
      get_date (some ⟨some ⟨some s⟩⟩) =
        Except.error "ValueError: invalid isoformat string") ∧
    (∀ (s : String) (d : DateT), s ≠ "" → fromisoformat (s.take 10) = some d →
      get_date (some ⟨some ⟨some s⟩⟩) = Except.ok (some d)) := by
  refine ⟨rfl, ?_, rfl, ?_, ?_, rfl, ?_, ?_⟩
  · intro p hp
    simp [get_formula_string, hp]
  · intro p hp
    simp [get_date, hp]
  · intro dobj hd
    simp [get_date, hd]
  · intro s hs hiso
    simp [get_date, hs, hiso]
  · intro s d hs hiso
    simp [get_date, hs, hiso]

theorem decoder_tolerance_witness :
    get_date (some ⟨some ⟨some "bogus-date"⟩⟩) =
        Except.error "ValueError: invalid isoformat string" ∧
      get_date (some ⟨some ⟨some "2025-03-04"⟩⟩) =
        Except.ok (some ⟨2025, 3, 4⟩) :=
  ⟨decoder_tolerance.2.2.2.2.2.2.1 "bogus-date" (by decide) (by rfl),
    decoder_tolerance.2.2.2.2.2.2.2 "2025-03-04" ⟨2025, 3, 4⟩ (by decide) (by rfl)⟩

/-! ## C9: key determinism -/

/-- C9: the key builder is a pure function of the record's page id: any two
    fetches of the same page — in any call order, any run, any process — yield
    the identical sync key string. -/
theorem sync_key_deterministic (r1 r2 : SourceRow) (h : r1.id = r2.id) :
    syncKeyOf r1 = syncKeyOf r2 := by
  unfold syncKeyOf
  rw [h]

theorem sync_key_deterministic_witness :
    row9a.id = row9b.id ∧ syncKeyOf row9a = syncKeyOf row9b :=
  ⟨rfl, sync_key_deterministic row9a row9b rfl⟩

/-! ## C3: interval expansion -/

/-- C3 counterexample: the claim says an approved record's date range is
    expanded day by day into one bucket per covered ISO week.  For `row3`
    (2025-01-01 .. 2025-01-13) the claim's expander yields the three weeks
    W01-W03 of 2025, but the script's run issues a single upsert whose ISO Week
    label "2025-W01" is computed from the start date alone. -/
theorem interval_expansion_counterexample :
    (claimExpandBuckets ⟨2025, 1, 1⟩ ⟨2025, 1, 13⟩ none false).map Prod.fst =
        ["2025-W01", "2025-W02", "2025-W03"] ∧
      ∃ res, run ⟨2025, 2, 1⟩ 45 "ts" [row3] [] = (res, none) ∧
        res.calls.filterMap callIsoWeek = ["2025-W01"] ∧
        res.calls.filterMap callIsoWeek ≠
          (claimExpandBuckets ⟨2025, 1, 1⟩ ⟨2025, 1, 13⟩ none false).map
            Prod.fst := by
  refine ⟨by rfl, (run ⟨2025, 2, 1⟩ 45 "ts" [row3] []).1, by rfl, by rfl, ?_⟩
  intro hcon
  have h1 : (run ⟨2025, 2, 1⟩ 45 "ts" [row3] []).1.calls.filterMap callIsoWeek =
      ["2025-W01"] := by rfl
  have h2 : (claimExpandBuckets ⟨2025, 1, 1⟩ ⟨2025, 1, 13⟩ none false).map
      Prod.fst = ["2025-W01", "2025-W02", "2025-W03"] := by rfl
  rw [h1, h2] at hcon
  cases hcon

/-- C3 amended: the script performs no per-day expansion: every record that
    reaches the upsert produces exactly one API call, and that call's ISO Week
    label is computed from the start date alone as
    "{iso_year}-W{iso_week:02d}", regardless of how many ISO weeks the range
    covers and with no per-day weights. -/
theorem single_bucket_from_start (cutoff : DateT) (nowTs : String)
    (st : RunState) (r : SourceRow) (sd ed : DateT)
    (h : dateLt ed cutoff = false) :
    ∃ c, (stepRow cutoff nowTs st r (some sd) (some ed)).calls =
        st.calls ++ [c] ∧
      callIsoWeek c = some (isoWeekStrOf sd) := by
  cases hl : lookupKey (syncKeyOf r) st.index with
  | some pid =>
    rw [stepRow_update cutoff nowTs st r sd ed pid h hl]
    exact ⟨ApiCall.updatePage pid (payloadOf nowTs r sd ed), rfl, rfl⟩
  | none =>
    rw [stepRow_create cutoff nowTs st r sd ed h hl]
    exact ⟨ApiCall.createPage (payloadOf nowTs r sd ed), rfl, rfl⟩

theorem single_bucket_from_start_witness :
    ∃ c, (stepRow ⟨2024, 12, 18⟩ "ts"
        { created := 0, updated := 0, skipped := 0, index := [], targets := []
        , nextId := 0, calls := [] } row3
        (some ⟨2025, 1, 1⟩) (some ⟨2025, 1, 13⟩)).calls = [] ++ [c] ∧
      callIsoWeek c = some (isoWeekStrOf ⟨2025, 1, 1⟩) :=
  single_bucket_from_start ⟨2024, 12, 18⟩ "ts"
    { created := 0, updated := 0, skipped := 0, index := [], targets := []
    , nextId := 0, calls := [] } row3 ⟨2025, 1, 1⟩ ⟨2025, 1, 13⟩ (by rfl)

/-! ## C6: configuration gate -/

/-- C6: if any of the credential token, source store id, or target store id is
    absent or empty, the process fails during module initialization with a
    fatal error: the API call trace of the whole program is empty — no source
    or target record is read or written. -/
theorem config_missing_aborts (e : Env) (today : DateT) (nowTs : String)
    (src : List SourceRow) (t0 : List TargetRow)
    (h : pyFalsy e.notionToken = true ∨ pyFalsy e.sourceDbId = true ∨
      pyFalsy e.targetDbId = true) :
    (programTrace e today nowTs src t0).1 = [] ∧
      ∃ m, (programTrace e today nowTs src t0).2 = some m := by
  have hbool : (pyFalsy e.notionToken || pyFalsy e.sourceDbId ||
      pyFalsy e.targetDbId) = true := by
    rcases h with h | h | h <;> simp [h]
  unfold programTrace moduleInit
  cases hlb : lookbackFromEnv e.syncLookbackDays with
  | error m => simp
  | ok lb => simp [hbool]

theorem config_missing_aborts_witness :
    pyFalsy (none : Option String) = true ∧
      (programTrace ⟨none, some "src-db", some "tgt-db", none⟩ ⟨2025, 2, 1⟩
        "ts" [] []).1 = [] ∧
      ∃ m, (programTrace ⟨none, some "src-db", some "tgt-db", none⟩ ⟨2025, 2, 1⟩
        "ts" [] []).2 = some m := by
  have h := config_missing_aborts ⟨none, some "src-db", some "tgt-db", none⟩
    ⟨2025, 2, 1⟩ "ts" [] [] (Or.inl rfl)
  exact ⟨rfl, h.1, h.2⟩

/-! ## C8: at most one create per key within a run -/

theorem stepRow_create_once {st : RunState} (cutoff : DateT) (nowTs : String)
    (r : SourceRow) (s e : Option DateT) (k : String)
    (h1 : st.calls.countP (isCreateKey k) ≤ 1)
    (h2 : 1 ≤ st.calls.countP (isCreateKey k) →
      (lookupKey k st.index).isSome = true) :
    (stepRow cutoff nowTs st r s e).calls.countP (isCreateKey k) ≤ 1 ∧
      (1 ≤ (stepRow cutoff nowTs st r s e).calls.countP (isCreateKey k) →
        (lookupKey k (stepRow cutoff nowTs st r s e).index).isSome = true) := by
  cases s with
  | none => rw [stepRow_skip_left]; exact ⟨h1, h2⟩
  | some sd =>
    cases e with
    | none => rw [stepRow_skip_right]; exact ⟨h1, h2⟩
    | some ed =>
      cases hlt : dateLt ed cutoff with
      | true => rw [stepRow_skip_cutoff cutoff nowTs st r sd ed hlt]; exact ⟨h1, h2⟩
      | false =>
        cases hl : lookupKey (syncKeyOf r) st.index with
        | some pid =>
          rw [stepRow_update cutoff nowTs st r sd ed pid hlt hl]
          constructor
          · show (st.calls ++
              [ApiCall.updatePage pid (payloadOf nowTs r sd ed)]).countP
                (isCreateKey k) ≤ 1
            simpa [List.countP_append, isCreateKey, List.countP_cons] using h1
          · intro hcnt
            apply h2
            simpa [List.countP_append, isCreateKey, List.countP_cons] using hcnt
        | none =>
          rw [stepRow_create cutoff nowTs st r sd ed hlt hl]
          by_cases hk : syncKeyOf r = k
          · have hz : st.calls.countP (isCreateKey k) = 0 := by
              by_contra hnz
              have : 1 ≤ st.calls.countP (isCreateKey k) := by omega
              have := h2 this
              rw [hk] at hl
              rw [hl] at this
              cases this
            constructor
            · show (st.calls ++
                [ApiCall.createPage (payloadOf nowTs r sd ed)]).countP
                  (isCreateKey k) ≤ 1
              rw [List.countP_append, hz]
              simp [isCreateKey, List.countP_cons, payloadOf, hk]
            · intro _
              show (lookupKey k ((syncKeyOf r, freshId st.nextId) ::
                st.index)).isSome = true
              rw [lookupKey_cons, if_pos hk.symm]
              rfl
          · have hstep : (st.calls ++
                [ApiCall.createPage (payloadOf nowTs r sd ed)]).countP
                  (isCreateKey k) = st.calls.countP (isCreateKey k) := by
              rw [List.countP_append]
              simp [isCreateKey, List.countP_cons, payloadOf, hk]
            constructor
            · show (st.calls ++
                [ApiCall.createPage (payloadOf nowTs r sd ed)]).countP
                  (isCreateKey k) ≤ 1
              rw [hstep]
              exact h1
            · intro hcnt
              rw [hstep] at hcnt
              show (lookupKey k ((syncKeyOf r, freshId st.nextId) ::
                st.index)).isSome = true
              rw [lookupKey_cons, if_neg (fun hc => hk hc.symm)]
              exact h2 hcnt

theorem loopF_create_once (cutoff : DateT) (nowTs : String) :
    ∀ (rs : List SourceRow) (st : RunState) (k : String),
      st.calls.countP (isCreateKey k) ≤ 1 →
      (1 ≤ st.calls.countP (isCreateKey k) →
        (lookupKey k st.index).isSome = true) →
      (loopF cutoff nowTs st rs).calls.countP (isCreateKey k) ≤ 1 := by
  intro rs
  induction rs with
  | nil => intro st k h1 h2; exact h1
  | cons r rs ih =>
    intro st k h1 h2
    obtain ⟨h1s, h2s⟩ := stepRow_create_once cutoff nowTs r _ _ k h1 h2
    exact ih _ k h1s h2s

/-- C8: within a single run, at most one create call is issued per sync key:
    the create path inserts the fresh page id into the in-memory index before
    the next lookup, so a second occurrence of the same key takes the update
    path. -/
theorem create_at_most_once (today : DateT) (lb : Nat) (now : String)
    (src : List SourceRow) (t0 : List TargetRow) (res : RunState)
    (h : run today lb now src t0 = (res, none)) (k : String) :
    res.calls.countP (isCreateKey k) ≤ 1 := by
  rw [run_eq] at h
  obtain ⟨-, hres⟩ := (runLoop_none_iff _ _ _ _ _).mp h
  rw [hres]
  apply loopF_create_once
  · show ([ApiCall.querySource, ApiCall.queryTarget].countP (isCreateKey k)) ≤ 1
    simp [List.countP_cons, isCreateKey]
  · intro hcnt
    have : ([ApiCall.querySource, ApiCall.queryTarget].countP
        (isCreateKey k)) = 0 := by
      simp [List.countP_cons, isCreateKey]
    rw [this] at hcnt
    cases hcnt

theorem create_at_most_once_witness :
    ∃ res, run ⟨2025, 2, 1⟩ 45 "ts" [row8, row8] [] = (res, none) ∧
      res.calls.countP (isCreateKey "page-8|LEAVE") ≤ 1 :=
  ⟨(run ⟨2025, 2, 1⟩ 45 "ts" [row8, row8] []).1, by rfl,
    create_at_most_once ⟨2025, 2, 1⟩ 45 "ts" [row8, row8] []
      (run ⟨2025, 2, 1⟩ 45 "ts" [row8, row8] []).1 (by rfl) "page-8|LEAVE"⟩

/-! ## C10: what the skipped counter counts -/

/-- C10: the skipped counter conflates malformed and out-of-window records: a
    clean run's skipped tally equals the number of filter-matching source rows
    whose start date is missing, whose end date is missing, or whose end date
    is strictly before today minus the lookback; and the lookback defaults to
    45 days when the environment variable is unset. -/
theorem skipped_counter_semantics :
    (∀ (today : DateT) (lb : Nat) (now : String) (src : List SourceRow)
        (t0 : List TargetRow) (res : RunState),
      run today lb now src t0 = (res, none) →
        res.skipped = (src.filter matchesSourceFilter).countP
          (skipsRow (dateSubDays today lb))) ∧
    lookbackFromEnv none = Except.ok 45 := by
  constructor
  · intro today lb now src t0 res h
    rw [run_eq] at h
    obtain ⟨-, hres⟩ := (runLoop_none_iff _ _ _ _ _).mp h
    rw [hres, loopF_skipped]
    simp
  · rfl

theorem skipped_counter_semantics_witness :
    ∃ res, run ⟨2025, 2, 1⟩ 45 "ts" [row10, w1row] [] = (res, none) ∧
      res.skipped = ([row10, w1row].filter matchesSourceFilter).countP
        (skipsRow (dateSubDays ⟨2025, 2, 1⟩ 45)) ∧
      res.skipped = 1 :=
  ⟨(run ⟨2025, 2, 1⟩ 45 "ts" [row10, w1row] []).1, by rfl,
    skipped_counter_semantics.1 ⟨2025, 2, 1⟩ 45 "ts" [row10, w1row] []
      (run ⟨2025, 2, 1⟩ 45 "ts" [row10, w1row] []).1 (by rfl), by rfl⟩

end AvailSync
